import Mathlib

/-!
Verification of the measurement-result reassembly logic and job state machine
of `qiskit_iqm/iqm_job.py` (the `IQMJob` class), as a shallow embedding.

Measurement values arriving from the client are scalars, 1-D sequences or 2-D
sequences of integers (the client's result type is a map from measurement-key
strings to `list[list[int]]`; the code defends against other shapes with a
numpy shape check). We model such a value as `MeasValue` and `np.array(v,
dtype=int).shape` as `npShape` (`none` models the numpy error on a ragged
nested list).
-/

/-- A decoded measurement key, as produced by `MeasurementKey.from_string`:
the index of the classical register among all registers, its bit width, and
the bit position within the register. -/
structure MeasurementKey where
  creg_idx : Nat
  creg_len : Nat
  clbit_idx : Nat
deriving Repr, DecidableEq

/-- A raw measurement value: a scalar, a flat sequence of scalars, or a
nested sequence of rows of scalars. -/
inductive MeasValue where
  | scalar : Int → MeasValue
  | flat : List Int → MeasValue
  | nested : List (List Int) → MeasValue
deriving Repr, DecidableEq

/-- The Python exceptions the embedded code can raise. -/
inductive PyError where
  /-- `next(iter(...))` on an empty measurements dict. -/
  | stopIteration : PyError
  /-- `len()` of a scalar. -/
  | typeError : PyError
  /-- `np.array(v, dtype=int)` on a ragged nested list. -/
  | raggedArrayError : PyError
  /-- The explicit `ValueError` raised on a shape mismatch: carries the
  measurement key, the actual shape, and the expected shape. -/
  | valueError : MeasurementKey → List Nat → List Nat → PyError
  /-- numpy `IndexError` from `creg[:, clbit_idx] = res` when `clbit_idx` is
  out of range for the grid. -/
  | indexError : PyError
  /-- `NotImplementedError` with its message. -/
  | notImplementedError : String → PyError
deriving Repr, DecidableEq

/-- `np.array(v, dtype=int).shape`: `some []` for a scalar, `some [n]` for a
flat list of `n` scalars, `some [n, m]` for `n` rows of uniform length `m`,
and `none` (construction error) for ragged rows. An empty nested list has
shape `[0]`, as in numpy. -/
def npShape : MeasValue → Option (List Nat)
  | .scalar _ => some []
  | .flat xs => some [xs.length]
  | .nested [] => some [0]
  | .nested (r :: rs) =>
    if rs.all (fun r2 => r2.length = r.length) then some ((rs.length + 1) :: [r.length])
    else none

/-- Python `len(v)`: `none` models the `TypeError` on a scalar. -/
def pyLen : MeasValue → Option Nat
  | .scalar _ => none
  | .flat xs => some xs.length
  | .nested rows => some rows.length

/-- `res[:, 0]` on a value of shape `(shots, 1)`: the single column. Only
used under the shape guard, where every row is a one-element list. -/
def extractCol : MeasValue → List Int
  | .nested rows => rows.map (fun r => r.headD 0)
  | _ => []

/-- A register's result grid: `shots` rows of `creg_len` bits each. -/
abbrev Grid := List (List Int)

/-- `np.zeros((shots, clen), dtype=int)`. -/
def zeroGrid (shots clen : Nat) : Grid :=
  List.replicate shots (List.replicate clen 0)

/-- `creg[:, j] = col`: write `col` down column `j` of the grid. -/
def setColumn (g : Grid) (j : Nat) (col : List Int) : Grid :=
  g.zipWith (fun row b => row.set j b) col

/-- An entry of the `measurements` dict built by `_format_iqm_result`:
register index, the width the grid was created with, and the grid. -/
abbrev GridEntry := Nat × Nat × Grid

/-- Dict lookup by register index (first matching entry). -/
def findGrid : List GridEntry → Nat → Option (Nat × Grid)
  | [], _ => none
  | (c, w, g) :: rest, cidx => if c = cidx then some (w, g) else findGrid rest cidx

/-- Replace the grid stored under register index `cidx`. -/
def replaceGrid : List GridEntry → Nat → Grid → List GridEntry
  | [], _, _ => []
  | (c, w, g) :: rest, cidx, g2 =>
    if c = cidx then (c, w, g2) :: rest else (c, w, g) :: replaceGrid rest cidx g2

/-- Process one raw-map entry: check `np.array(v).shape == (shots, 1)`,
then `setdefault` a zero grid for the register and write the column into
grid column `clbit_idx` (numpy raises `IndexError` when `clbit_idx` is out
of range for the grid's width). -/
def applyEntry (shots : Nat) (grids : List GridEntry) (k : MeasurementKey)
    (v : MeasValue) : Except PyError (List GridEntry) :=
  match npShape v with
  | none => .error .raggedArrayError
  | some shp =>
    if shp = [shots, 1] then
      let col := extractCol v
      match findGrid grids k.creg_idx with
      | some (w, g) =>
        if k.clbit_idx < w then
          .ok (replaceGrid grids k.creg_idx (setColumn g k.clbit_idx col))
        else .error .indexError
      | none =>
        if k.clbit_idx < k.creg_len then
          .ok (grids ++ [(k.creg_idx, k.creg_len,
            setColumn (zeroGrid shots k.creg_len) k.clbit_idx col)])
        else .error .indexError
    else .error (.valueError k shp [shots, 1])

/-- The loop over `iqm_result.measurements.items()` building the per-register
grids, in dict (insertion) order. -/
def buildGrids (shots : Nat) :
    List (MeasurementKey × MeasValue) → List GridEntry → Except PyError (List GridEntry)
  | [], grids => .ok grids
  | (k, v) :: rest, grids =>
    match applyEntry shots grids k v with
    | .ok grids2 => buildGrids shots rest grids2
    | .error e => .error e

/-- Insert an entry into a list that is kept in descending register-index
order: the entry goes before the first strictly smaller index. -/
def insertDescending (x : GridEntry) : List GridEntry → List GridEntry
  | [] => [x]
  | y :: ys => if y.1 < x.1 then x :: y :: ys else y :: insertDescending x ys

/-- `sorted(measurements.items(), reverse=True)`: the dict entries sorted by
register index, highest first (keys are distinct, so only the index is ever
compared). -/
def sortGridsDescending : List GridEntry → List GridEntry
  | [] => []
  | x :: xs => insertDescending x (sortGridsDescending xs)

/-- `''.join(map(str, res[s, ::-1]))`: one register's bits for one shot,
reversed so the highest `clbit_idx` is leftmost. -/
def rowString (row : List Int) : String :=
  String.join (row.reverse.map (fun b => toString b))

/-- One shot's output line: per-register strings joined by a single space,
registers sorted by index descending. -/
def shotString (grids : List GridEntry) (s : Nat) : String :=
  String.intercalate " "
    ((sortGridsDescending grids).map (fun e => rowString (e.2.2.getD s [])))

/-- The final list comprehension over `range(shots)`. -/
def assemble (shots : Nat) (grids : List GridEntry) : List String :=
  (List.range shots).map (shotString grids)

/-- `next(iter(iqm_result.measurements.values()))` followed by `len(...)`:
the default argument of `self.metadata.get`, evaluated eagerly as in Python. -/
def defaultShots : List (MeasurementKey × MeasValue) → Except PyError Nat
  | [] => .error .stopIteration
  | (_, v) :: _ =>
    match pyLen v with
    | none => .error .typeError
    | some n => .ok n

/-- `self.metadata.get('shots', len(next(iter(...))))`: the metadata shot
count when present, otherwise the length of the first measurement column. -/
def determineShots (mdShots : Option Nat)
    (ms : List (MeasurementKey × MeasValue)) : Except PyError Nat :=
  match defaultShots ms with
  | .error e => .error e
  | .ok d => .ok (mdShots.getD d)

/-- `IQMJob._format_iqm_result`: reassemble the raw measurement map into one
bitstring per shot. -/
def format_iqm_result (mdShots : Option Nat)
    (ms : List (MeasurementKey × MeasValue)) : Except PyError (List String) :=
  match determineShots mdShots ms with
  | .error e => .error e
  | .ok shots =>
    match buildGrids shots ms [] with
    | .error e => .error e
    | .ok grids => .ok (assemble shots grids)

/-- The status values of the external client's run record (`RunStatus`);
only the readiness sentinel is compared against. -/
inductive RunStatus where
  | READY : RunStatus
  | PENDING : RunStatus
  | FAILED : RunStatus
deriving Repr, DecidableEq

/-- Qiskit `JobStatus` values this job can report. -/
inductive JobStatus where
  | DONE : JobStatus
  | RUNNING : JobStatus
deriving Repr, DecidableEq

/-- The external client's run record: status plus the raw measurement map
(dict entries in insertion order, keys already decoded). -/
structure RunRecord where
  status : RunStatus
  measurements : List (MeasurementKey × MeasValue)
deriving Repr, DecidableEq

/-- The state of one `IQMJob` instance together with the responses the
external client would give it: `metadataShots` is `self.metadata.get('shots')`,
`waitResponse` is what `self._client.wait_for_results` returns, `getRunResponse`
is what `self._client.get_run` returns, and `resultCache` is `self._result`
(initially `None`). -/
structure IQMJobState where
  metadataShots : Option Nat
  waitResponse : RunRecord
  getRunResponse : RunRecord
  resultCache : Option (List String)
deriving Repr, DecidableEq

/-- Python truthiness of `self._result`: `None` and the empty list are both
falsy, so `if not self._result` treats a cached empty list as absent. -/
def pyTruthy : Option (List String) → Bool
  | none => false
  | some l => !l.isEmpty

/-- Python `collections.Counter` key order: first occurrence order. -/
def dedupKeepFirst : List String → List String
  | [] => []
  | x :: xs => x :: (dedupKeepFirst xs).filter (fun y => y ≠ x)

/-- `Counts(Counter(mem))`: each distinct bitstring paired with its number
of occurrences, in first-occurrence order. -/
def counter (l : List String) : List (String × Nat) :=
  (dedupKeepFirst l).map (fun s => (s, l.count s))

/-- The single entry of the `results` list in the dict passed to
`Result.from_dict`. -/
structure ExperimentResult where
  shots : Nat
  success : Bool
  memory : List String
  counts : List (String × Nat)
deriving Repr, DecidableEq

/-- The fields of the structured `Result` that depend on the job (backend
name/version and qobj id are always `None` and the date is external). -/
structure QiskitResult where
  job_id : String
  success : Bool
  results : List ExperimentResult
deriving Repr, DecidableEq

/-- The result dict built by `IQMJob.result` from the job id and the cached
per-shot bitstrings. -/
def mkQiskitResult (jobId : String) (mem : List String) : QiskitResult :=
  { job_id := jobId
    success := true
    results := [{ shots := mem.length
                  success := true
                  memory := mem
                  counts := counter mem }] }

namespace IQMJob

/-- `IQMJob.result`: on a truthy cache, build the result from it; otherwise
call `wait_for_results`, reassemble, cache, and build the result. The third
component records whether `wait_for_results` was invoked. -/
def result (jobId : String) (j : IQMJobState) :
    Except PyError (QiskitResult × IQMJobState × Bool) :=
  if pyTruthy j.resultCache then
    .ok (mkQiskitResult jobId (j.resultCache.getD []), j, false)
  else
    match format_iqm_result j.metadataShots j.waitResponse.measurements with
    | .ok mem => .ok (mkQiskitResult jobId mem, { j with resultCache := some mem }, true)
    | .error e => .error e

/-- `IQMJob.status`: `DONE` immediately on a truthy cache; otherwise call
`get_run` and, when the run is ready, reassemble, cache and return `DONE`,
else return `RUNNING`. The third component records whether `get_run` was
invoked. -/
def status (j : IQMJobState) :
    Except PyError (JobStatus × IQMJobState × Bool) :=
  if pyTruthy j.resultCache then
    .ok (.DONE, j, false)
  else
    if j.getRunResponse.status = .READY then
      match format_iqm_result j.metadataShots j.getRunResponse.measurements with
      | .ok mem => .ok (.DONE, { j with resultCache := some mem }, true)
      | .error e => .error e
    else .ok (.RUNNING, j, true)

/-- `IQMJob.submit`: unconditionally raises `NotImplementedError`. -/
def submit (_j : IQMJobState) : Except PyError Unit :=
  .error (.notImplementedError "Instead, use IQMBackend.run to submit jobs.")

/-- `IQMJob.cancel`: unconditionally raises `NotImplementedError`. -/
def cancel (_j : IQMJobState) : Except PyError Unit :=
  .error (.notImplementedError "Canceling jobs is currently not supported.")

end IQMJob

/-! ### Lemmas about the descending sort -/

theorem mem_insertDescending (x z : GridEntry) (l : List GridEntry) :
    z ∈ insertDescending x l ↔ z = x ∨ z ∈ l := by
  induction l with
  | nil => simp [insertDescending]
  | cons y ys ih =>
    simp only [insertDescending]
    split
    · simp
    · simp only [List.mem_cons, ih]
      tauto

theorem pairwise_insertDescending (x : GridEntry) (l : List GridEntry)
    (h : List.Pairwise (fun a b => b.1 ≤ a.1) l) :
    List.Pairwise (fun a b => b.1 ≤ a.1) (insertDescending x l) := by
  induction l with
  | nil => simp [insertDescending]
  | cons y ys ih =>
    simp only [insertDescending]
    rcases h with _ | ⟨hy, hys⟩
    by_cases hlt : y.1 < x.1
    · rw [if_pos hlt]
      refine List.Pairwise.cons ?_ (List.Pairwise.cons hy hys)
      intro z hz
      rcases List.mem_cons.mp hz with rfl | hz
      · omega
      · have := hy z hz
        omega
    · rw [if_neg hlt]
      refine List.Pairwise.cons ?_ (ih hys)
      intro z hz
      rcases (mem_insertDescending x z ys).mp hz with rfl | hz
      · omega
      · exact hy z hz

theorem pairwise_sortGridsDescending (l : List GridEntry) :
    List.Pairwise (fun a b => b.1 ≤ a.1) (sortGridsDescending l) := by
  induction l with
  | nil => exact List.Pairwise.nil
  | cons x xs ih => exact pairwise_insertDescending x _ ih

/-! ### Lemmas about `Counter` -/

theorem mem_dedupKeepFirst (s : String) (l : List String) :
    s ∈ dedupKeepFirst l ↔ s ∈ l := by
  induction l with
  | nil => simp [dedupKeepFirst]
  | cons x xs ih =>
    simp only [dedupKeepFirst, List.mem_cons, List.mem_filter, ih]
    constructor
    · rintro (rfl | ⟨h, _⟩)
      · exact Or.inl rfl
      · exact Or.inr h
    · rintro (rfl | h)
      · exact Or.inl rfl
      · by_cases hx : s = x
        · exact Or.inl hx
        · exact Or.inr ⟨h, by simpa using hx⟩

theorem lookup_map_self (l : List String) (f : String → Nat) (s : String) :
    List.lookup s (l.map (fun x => (x, f x))) = if s ∈ l then some (f s) else none := by
  induction l with
  | nil => simp [List.lookup]
  | cons x xs ih =>
    simp only [List.map_cons, List.lookup, List.mem_cons]
    by_cases hx : s = x
    · subst hx
      simp
    · have : (s == x) = false := beq_false_of_ne hx
      rw [this]
      simp only [ih]
      by_cases hm : s ∈ xs <;> simp [hm, hx]

theorem lookup_counter (l : List String) (s : String) :
    List.lookup s (counter l) = if s ∈ l then some (l.count s) else none := by
  unfold counter
  rw [lookup_map_self]
  by_cases h : s ∈ l <;> simp [mem_dedupKeepFirst, h]

/-! ### Lemmas about shapes and grid building -/

/-- No measurement value has numpy shape `(0, 1)`: a nested list with zero
rows has shape `(0,)`, so a zero-shot shape check always fails. -/
theorem npShape_ne_zero_one (v : MeasValue) (shp : List Nat)
    (h : npShape v = some shp) : shp ≠ [0, 1] := by
  intro hc
  subst hc
  cases v with
  | scalar n => simp [npShape] at h
  | flat xs => simp [npShape] at h
  | nested rows =>
    cases rows with
    | nil => simp [npShape] at h
    | cons r rs =>
      simp only [npShape] at h
      split at h
      · simp at h
      · cases h

/-- If an entry is accepted, its value's numpy shape is exactly `(shots, 1)`. -/
theorem applyEntry_ok_shape (shots : Nat) (grids grids2 : List GridEntry)
    (k : MeasurementKey) (v : MeasValue)
    (h : applyEntry shots grids k v = .ok grids2) : npShape v = some [shots, 1] := by
  unfold applyEntry at h
  cases hs : npShape v with
  | none => rw [hs] at h; cases h
  | some shp =>
    rw [hs] at h
    by_cases he : shp = [shots, 1]
    · rw [he]
    · simp only [he, if_false] at h
      cases h

/-- If grid building succeeds, every raw-map entry passed the shape check. -/
theorem buildGrids_ok_shapes (shots : Nat) :
    ∀ (ms : List (MeasurementKey × MeasValue)) (grids grids2 : List GridEntry),
    buildGrids shots ms grids = .ok grids2 →
    ∀ p ∈ ms, npShape p.2 = some [shots, 1] := by
  intro ms
  induction ms with
  | nil => intro _ _ _ p hp; cases hp
  | cons q rest ih =>
    intro grids grids2 h p hp
    obtain ⟨k, v⟩ := q
    simp only [buildGrids] at h
    cases ha : applyEntry shots grids k v with
    | error e => rw [ha] at h; cases h
    | ok grids1 =>
      rw [ha] at h
      rcases List.mem_cons.mp hp with hp | hp
      · subst hp
        exact applyEntry_ok_shape shots grids grids1 k v ha
      · exact ih grids1 grids2 h p hp

/-- Unfolding of `format_iqm_result` on success. -/
theorem format_ok_elim (mdShots : Option Nat) (ms : List (MeasurementKey × MeasValue))
    (out : List String) (h : format_iqm_result mdShots ms = .ok out) :
    ∃ shots grids, determineShots mdShots ms = .ok shots ∧
      buildGrids shots ms [] = .ok grids ∧ out = assemble shots grids := by
  unfold format_iqm_result at h
  split at h
  · cases h
  · rename_i shots hd
    split at h
    · cases h
    · rename_i grids hb
      cases h
      exact ⟨shots, grids, hd, hb, rfl⟩

/-- A successful determination of the shot count means the raw map is
nonempty and the first column has a length. -/
theorem determineShots_ok_elim (mdShots : Option Nat)
    (ms : List (MeasurementKey × MeasValue)) (shots : Nat)
    (h : determineShots mdShots ms = .ok shots) :
    ∃ k v rest d, ms = (k, v) :: rest ∧ pyLen v = some d ∧ shots = mdShots.getD d := by
  unfold determineShots at h
  split at h
  · cases h
  · rename_i d hdef
    cases h
    cases ms with
    | nil => simp [defaultShots] at hdef
    | cons q rest =>
      obtain ⟨k, v⟩ := q
      simp only [defaultShots] at hdef
      cases hl : pyLen v with
      | none => rw [hl] at hdef; cases hdef
      | some n =>
        rw [hl] at hdef
        cases hdef
        exact ⟨k, v, rest, d, rfl, hl, rfl⟩

/-- A successful reassembly never produces the empty list: it produces one
string per shot, and a zero shot count makes the first entry's shape check
fail (no value has shape `(0, 1)`). -/
theorem format_ok_ne_nil (mdShots : Option Nat) (ms : List (MeasurementKey × MeasValue))
    (out : List String) (h : format_iqm_result mdShots ms = .ok out) : out ≠ [] := by
  obtain ⟨shots, grids, hd, hb, hout⟩ := format_ok_elim mdShots ms out h
  obtain ⟨k, v, rest, d, hms, _, _⟩ := determineShots_ok_elim mdShots ms shots hd
  cases hshots : shots with
  | succ n =>
    subst hout
    simp [assemble, hshots, List.range_succ]
  | zero =>
    exfalso
    subst hms hshots
    have := buildGrids_ok_shapes 0 _ _ _ hb (k, v) (by simp)
    exact npShape_ne_zero_one v [0, 1] this rfl

/-! ### Grid construction invariants -/

theorem findGrid_mem : ∀ (grids : List GridEntry) (cidx w : Nat) (g : Grid),
    findGrid grids cidx = some (w, g) → (cidx, w, g) ∈ grids := by
  intro grids
  induction grids with
  | nil => intro _ _ _ h; cases h
  | cons e rest ih =>
    intro cidx w g h
    obtain ⟨c, w0, g0⟩ := e
    simp only [findGrid] at h
    by_cases hc : c = cidx
    · rw [if_pos hc] at h
      cases h
      subst hc
      exact List.mem_cons_self _ _
    · rw [if_neg hc] at h
      exact List.mem_cons_of_mem _ (ih cidx w g h)

/-- Replacing the grid found under `cidx` preserves any per-entry property
that the replacement entry itself satisfies. -/
theorem findReplace_preserve (P : GridEntry → Prop) :
    ∀ (grids : List GridEntry) (cidx w : Nat) (g g2 : Grid),
    (∀ e ∈ grids, P e) → findGrid grids cidx = some (w, g) → P (cidx, w, g2) →
    ∀ e ∈ replaceGrid grids cidx g2, P e := by
  intro grids
  induction grids with
  | nil => intro _ _ _ _ _ h; cases h
  | cons e0 rest ih =>
    intro cidx w g g2 hall hfind hP e he
    obtain ⟨c, w0, g0⟩ := e0
    simp only [findGrid] at hfind
    simp only [replaceGrid] at he
    by_cases hc : c = cidx
    · rw [if_pos hc] at hfind he
      cases hfind
      rcases List.mem_cons.mp he with rfl | he
      · subst hc; exact hP
      · exact hall e (List.mem_cons_of_mem _ he)
    · rw [if_neg hc] at hfind he
      rcases List.mem_cons.mp he with rfl | he
      · exact hall _ (List.mem_cons_self _ _)
      · exact ih cidx w g g2 (fun e' he' => hall e' (List.mem_cons_of_mem _ he')) hfind hP e he

theorem mem_setColumn : ∀ (g : Grid) (col : List Int) (j : Nat) (row2 : List Int),
    row2 ∈ setColumn g j col → ∃ row b, row ∈ g ∧ row2 = row.set j b := by
  intro g
  induction g with
  | nil => intro col j row2 h; cases h
  | cons r rest ih =>
    intro col j row2 h
    cases col with
    | nil => cases h
    | cons b col2 =>
      simp only [setColumn, List.zipWith] at h
      rcases List.mem_cons.mp h with rfl | h
      · exact ⟨r, b, List.mem_cons_self _ _, rfl⟩
      · obtain ⟨row, b2, hrow, heq⟩ := ih col2 j row2 h
        exact ⟨row, b2, List.mem_cons_of_mem _ hrow, heq⟩

theorem getD_set_ne (l : List Int) (i j : Nat) (a : Int) (d : Int) (h : i ≠ j) :
    (l.set i a).getD j d = l.getD j d := by
  rw [List.getD_eq_getElem?_getD, List.getD_eq_getElem?_getD, List.getElem?_set_ne h]

theorem getD_replicate_of_lt (n j : Nat) (a d : Int) (h : j < n) :
    (List.replicate n a).getD j d = a := by
  rw [List.getD_eq_getElem?_getD, List.getElem?_replicate, if_pos h]
  rfl

/-- Column `j` of register `c` is all zeros (and in range), across a grid
collection. -/
def ColZero (c j : Nat) (grids : List GridEntry) : Prop :=
  ∀ e ∈ grids, e.1 = c → j < e.2.1 → ∀ row ∈ e.2.2, row.getD j 1 = 0

theorem applyEntry_colZero (shots : Nat) (grids grids2 : List GridEntry)
    (k : MeasurementKey) (v : MeasValue) (c j : Nat)
    (h : applyEntry shots grids k v = .ok grids2)
    (hz : ColZero c j grids)
    (hkj : k.creg_idx = c → k.clbit_idx ≠ j) :
    ColZero c j grids2 := by
  unfold applyEntry at h
  split at h
  · cases h
  · rename_i shp hs
    split at h
    · split at h
      · rename_i w g hfind
        split at h
        · rename_i hlt
          cases h
          intro e he
          refine findReplace_preserve
            (fun e => e.1 = c → j < e.2.1 → ∀ row ∈ e.2.2, row.getD j 1 = 0)
            grids k.creg_idx w g _ hz hfind ?_ e he
          intro hc hj row2 hrow2
          obtain ⟨row, b, hrow, rfl⟩ := mem_setColumn g _ k.clbit_idx row2 hrow2
          rw [getD_set_ne row k.clbit_idx j b 1 (hkj hc)]
          exact hz (k.creg_idx, w, g) (findGrid_mem grids k.creg_idx w g hfind) hc hj row hrow
        · cases h
      · rename_i hfind
        split at h
        · rename_i hlt
          cases h
          intro e he
          rcases List.mem_append.mp he with he | he
          · exact hz e he
          · rcases List.mem_singleton.mp he with rfl
            intro hc hj row2 hrow2
            obtain ⟨row, b, hrow, rfl⟩ :=
              mem_setColumn (zeroGrid shots k.creg_len) _ k.clbit_idx row2 hrow2
            rw [getD_set_ne row k.clbit_idx j b 1 (hkj hc)]
            have hrow0 : row = List.replicate k.creg_len 0 := List.eq_of_mem_replicate hrow
            rw [hrow0]
            exact getD_replicate_of_lt k.creg_len j 0 1 hj
        · cases h
    · cases h

theorem buildGrids_colZero (shots : Nat) (c j : Nat) :
    ∀ (ms : List (MeasurementKey × MeasValue)) (grids grids2 : List GridEntry),
    buildGrids shots ms grids = .ok grids2 → ColZero c j grids →
    (∀ p ∈ ms, p.1.creg_idx = c → p.1.clbit_idx ≠ j) →
    ColZero c j grids2 := by
  intro ms
  induction ms with
  | nil =>
    intro grids grids2 h hz _
    cases h
    exact hz
  | cons q rest ih =>
    intro grids grids2 h hz hnone
    obtain ⟨k, v⟩ := q
    simp only [buildGrids] at h
    cases ha : applyEntry shots grids k v with
    | error e => rw [ha] at h; cases h
    | ok grids1 =>
      rw [ha] at h
      refine ih grids1 grids2 h ?_ (fun p hp => hnone p (List.mem_cons_of_mem _ hp))
      exact applyEntry_colZero shots grids grids1 k v c j ha hz
        (hnone (k, v) (List.mem_cons_self _ _))

/-! ### Shape-validation machinery -/

/-- A raw-map value of the form the client sends: one one-element row per
shot (the conceptual single column of scalar results). -/
def IsColumn (v : MeasValue) : Prop :=
  ∃ bs : List Int, v = .nested (bs.map (fun b => [b]))

/-- The measurement keys of a raw map are consistent: within one register
index every key carries the same register width (`f` assigns it), and each
bit index is inside its register. -/
def KeysWF (f : Nat → Nat) (ms : List (MeasurementKey × MeasValue)) : Prop :=
  ∀ p ∈ ms, p.1.creg_len = f p.1.creg_idx ∧ p.1.clbit_idx < p.1.creg_len

/-- Every grid was created with the width `f` assigns to its register. -/
def GridsWF (f : Nat → Nat) (grids : List GridEntry) : Prop :=
  ∀ e ∈ grids, e.2.1 = f e.1

theorem pyLen_column (bs : List Int) :
    pyLen (.nested (bs.map (fun b => [b]))) = some bs.length := by
  simp [pyLen]

theorem npShape_column_nonempty (b : Int) (bs : List Int) :
    npShape (.nested ((b :: bs).map (fun x => [x]))) = some [bs.length + 1, 1] := by
  simp [npShape]

theorem npShape_column_nil :
    npShape (.nested (([] : List Int).map (fun x => [x]))) = some [0] := by
  simp [npShape]


/-- An entry whose value is rectangular but not of shape `(shots, 1)` makes
the shape check raise the `ValueError` carrying the key and both shapes. -/
theorem applyEntry_bad (shots : Nat) (grids : List GridEntry) (k : MeasurementKey)
    (v : MeasValue) (shp : List Nat) (hs : npShape v = some shp)
    (hne : shp ≠ [shots, 1]) :
    applyEntry shots grids k v = .error (.valueError k shp [shots, 1]) := by
  simp only [applyEntry, hs, if_neg hne]

/-- An entry whose value has shape `(shots, 1)` and whose key is consistent
with the grids built so far is accepted, and keeps the grids consistent. -/
theorem applyEntry_good (f : Nat → Nat) (shots : Nat) (grids : List GridEntry)
    (k : MeasurementKey) (v : MeasValue)
    (hg : GridsWF f grids) (hk : k.creg_len = f k.creg_idx)
    (hbit : k.clbit_idx < k.creg_len)
    (hs : npShape v = some [shots, 1]) :
    ∃ grids2, applyEntry shots grids k v = .ok grids2 ∧ GridsWF f grids2 := by
  have hcond : ([shots, 1] : List Nat) = [shots, 1] := rfl
  simp only [applyEntry, hs, if_pos hcond]
  cases hfind : findGrid grids k.creg_idx with
  | some wg =>
    obtain ⟨w, g⟩ := wg
    have hw : w = f k.creg_idx := hg (k.creg_idx, w, g) (findGrid_mem grids k.creg_idx w g hfind)
    have hlt : k.clbit_idx < w := by omega
    simp only [hfind, if_pos hlt]
    refine ⟨_, rfl, ?_⟩
    intro e he
    exact findReplace_preserve (fun e => e.2.1 = f e.1) grids k.creg_idx w g _ hg hfind hw e he
  | none =>
    simp only [hfind, if_pos hbit]
    refine ⟨_, rfl, ?_⟩
    intro e he
    rcases List.mem_append.mp he with he | he
    · exact hg e he
    · rcases List.mem_singleton.mp he with rfl
      exact hk

/-- If every raw-map value is a column with consistent keys but some column's
length differs from the (positive) shot count, grid building aborts with the
shape `ValueError` for such a column: the error carries its key, its actual
shape (whose first component is the bad length), and the expected shape. -/
theorem buildGrids_bad (f : Nat → Nat) (shots : Nat) (hpos : 0 < shots) :
    ∀ (ms : List (MeasurementKey × MeasValue)) (grids : List GridEntry),
    (∀ p ∈ ms, IsColumn p.2) → KeysWF f ms → GridsWF f grids →
    (∃ p ∈ ms, pyLen p.2 ≠ some shots) →
    ∃ k shp n, buildGrids shots ms grids = .error (.valueError k shp [shots, 1]) ∧
      (∃ v, (k, v) ∈ ms ∧ pyLen v = some n) ∧ n ≠ shots ∧ shp.head? = some n := by
  intro ms
  induction ms with
  | nil =>
    intro grids _ _ _ hbad
    obtain ⟨p, hp, _⟩ := hbad
    cases hp
  | cons q rest ih =>
    intro grids hcols hkeys hg hbad
    obtain ⟨k, v⟩ := q
    obtain ⟨bs, rfl⟩ := hcols (k, v) (List.mem_cons_self _ _)
    by_cases hlen : bs.length = shots
    · -- this entry passes the shape check; the bad one is further on
      cases bs with
      | nil => simp at hlen; omega
      | cons b bs2 =>
        have hlen2 : bs2.length + 1 = shots := by simpa using hlen
        have hs : npShape (.nested ((b :: bs2).map (fun x => [x]))) = some [shots, 1] := by
          rw [npShape_column_nonempty, hlen2]
        obtain ⟨hk, hbit⟩ := hkeys (k, _) (List.mem_cons_self _ _)
        obtain ⟨grids2, hok, hg2⟩ := applyEntry_good f shots grids k _ hg hk hbit hs
        have hbad2 : ∃ p ∈ rest, pyLen p.2 ≠ some shots := by
          obtain ⟨p, hp, hpl⟩ := hbad
          rcases List.mem_cons.mp hp with rfl | hp
          · exfalso
            rw [pyLen_column] at hpl
            exact hpl (by simp only [List.length_cons, hlen2])
          · exact ⟨p, hp, hpl⟩
        obtain ⟨k2, shp, n, hbuild, ⟨v2, hv2, hvl⟩, hn, hhead⟩ :=
          ih grids2 (fun p hp => hcols p (List.mem_cons_of_mem _ hp))
            (fun p hp => hkeys p (List.mem_cons_of_mem _ hp)) hg2 hbad2
        refine ⟨k2, shp, n, ?_, ⟨v2, List.mem_cons_of_mem _ hv2, hvl⟩, hn, hhead⟩
        simp only [buildGrids, hok]
        exact hbuild
    · -- this entry itself fails the shape check
      cases bs with
      | nil =>
        refine ⟨k, [0], 0, ?_, ⟨_, List.mem_cons_self _ _, pyLen_column []⟩,
          by omega, rfl⟩
        simp only [buildGrids,
          applyEntry_bad shots grids k _ [0] npShape_column_nil (by simp)]
      | cons b bs2 =>
        have hne : [bs2.length + 1, 1] ≠ [shots, 1] := by
          intro hc
          simp only [List.length_cons] at hlen
          simp only [List.cons.injEq, and_true] at hc
          omega
        refine ⟨k, [bs2.length + 1, 1], bs2.length + 1, ?_,
          ⟨_, List.mem_cons_self _ _, pyLen_column (b :: bs2)⟩,
          by simp only [List.length_cons] at hlen; omega, rfl⟩
        simp only [buildGrids,
          applyEntry_bad shots grids k _ _ (npShape_column_nonempty b bs2) hne]

/-- `format_iqm_result` propagates a grid-building error unchanged. -/
theorem format_error_of_buildGrids (mdShots : Option Nat)
    (ms : List (MeasurementKey × MeasValue)) (shots : Nat) (e : PyError)
    (hd : determineShots mdShots ms = .ok shots)
    (hb : buildGrids shots ms [] = .error e) :
    format_iqm_result mdShots ms = .error e := by
  simp only [format_iqm_result, hd, hb]

/-! ### Concrete example raw maps -/

/-- The spec's ordering example: registers 0 (width 2) and 1 (width 3), one
shot, register 1's stored row `[1,0,1]`, register 0's stored row `[0,1]`. -/
def orderingExample : List (MeasurementKey × MeasValue) :=
  [(⟨1, 3, 0⟩, .nested [[1]]), (⟨1, 3, 1⟩, .nested [[0]]), (⟨1, 3, 2⟩, .nested [[1]]),
   (⟨0, 2, 0⟩, .nested [[0]]), (⟨0, 2, 1⟩, .nested [[1]])]

/-- The spec's zero-fill example: a register of width 5 with only clbit
indices 0 and 2 present (both measuring 1), one shot. -/
def zeroFillExample : List (MeasurementKey × MeasValue) :=
  [(⟨0, 5, 0⟩, .nested [[1]]), (⟨0, 5, 2⟩, .nested [[1]])]

/-! ### Claim theorems -/

/-- Claim C1: on every successful reassembly the per-shot string is the
space-joined concatenation of the registers sorted by `creg_idx` descending,
each register's row reversed (highest `clbit_idx` leftmost); in particular
the spec's example yields `"101 10"`. -/
theorem register_and_bit_ordering :
    (∀ (mdShots : Option Nat) (ms : List (MeasurementKey × MeasValue)) (out : List String),
      format_iqm_result mdShots ms = .ok out →
      ∃ shots grids, buildGrids shots ms [] = .ok grids ∧
        List.Pairwise (fun a b : GridEntry => b.1 ≤ a.1) (sortGridsDescending grids) ∧
        out = (List.range shots).map (fun s => String.intercalate " "
          ((sortGridsDescending grids).map (fun e =>
            String.join ((e.2.2.getD s []).reverse.map (fun b => toString b))))))
    ∧ format_iqm_result (some 1) orderingExample = .ok ["101 10"] := by
  constructor
  · intro mdShots ms out h
    obtain ⟨shots, grids, _, hb, rfl⟩ := format_ok_elim mdShots ms out h
    exact ⟨shots, grids, hb, pairwise_sortGridsDescending grids, rfl⟩
  · rfl

/-- Claim C1 witness: the general part instantiated at the spec's example. -/
theorem register_and_bit_ordering_witness :
    ∃ shots grids, buildGrids shots orderingExample [] = .ok grids ∧
      List.Pairwise (fun a b : GridEntry => b.1 ≤ a.1) (sortGridsDescending grids) ∧
      ["101 10"] = (List.range shots).map (fun s => String.intercalate " "
        ((sortGridsDescending grids).map (fun e =>
          String.join ((e.2.2.getD s []).reverse.map (fun b => toString b))))) :=
  register_and_bit_ordering.1 (some 1) orderingExample ["101 10"] (by rfl)

/-- Claim C2: if a raw map (well-formed columns with consistent keys, at a
positive expected shot count) contains a column whose length differs from the
shot count, reassembly fails with the shape `ValueError` referencing an
offending key, its actual length (the head of the actual shape), and the
expected shape `(shots, 1)` — no `.ok` result is returned. -/
theorem shape_validation_aborts (mdShots : Option Nat)
    (ms : List (MeasurementKey × MeasValue)) (shots : Nat) (f : Nat → Nat)
    (hdet : determineShots mdShots ms = .ok shots)
    (hpos : 0 < shots)
    (hcols : ∀ p ∈ ms, IsColumn p.2)
    (hkeys : KeysWF f ms)
    (hbad : ∃ p ∈ ms, pyLen p.2 ≠ some shots) :
    ∃ k shp n, format_iqm_result mdShots ms = .error (.valueError k shp [shots, 1]) ∧
      (∃ v, (k, v) ∈ ms ∧ pyLen v = some n) ∧ n ≠ shots ∧ shp.head? = some n := by
  obtain ⟨k, shp, n, hb, hmem, hn, hh⟩ :=
    buildGrids_bad f shots hpos ms [] hcols hkeys (fun e he => absurd he (by simp)) hbad
  exact ⟨k, shp, n, format_error_of_buildGrids mdShots ms shots _ hdet hb, hmem, hn, hh⟩

/-- Claim C2 witness: a two-entry map whose second column has 3 rows instead
of the expected 1. -/
theorem shape_validation_aborts_witness :
    ∃ k shp n,
      format_iqm_result (some 1)
        [(⟨0, 2, 0⟩, .nested [[1]]), (⟨0, 2, 1⟩, .nested [[1], [0], [1]])] =
        .error (.valueError k shp [1, 1]) ∧
      (∃ v, (k, v) ∈
        [((⟨0, 2, 0⟩ : MeasurementKey), MeasValue.nested [[1]]),
         (⟨0, 2, 1⟩, .nested [[1], [0], [1]])] ∧ pyLen v = some n) ∧
      n ≠ 1 ∧ shp.head? = some n := by
  refine shape_validation_aborts (some 1) _ 1 (fun _ => 2) (by rfl) (by omega) ?_ ?_ ?_
  · intro p hp
    rcases List.mem_cons.mp hp with rfl | hp
    · exact ⟨[1], rfl⟩
    · rcases List.mem_singleton.mp hp with rfl
      exact ⟨[1, 0, 1], rfl⟩
  · intro p hp
    rcases List.mem_cons.mp hp with rfl | hp
    · exact ⟨rfl, by decide⟩
    · rcases List.mem_singleton.mp hp with rfl
      exact ⟨rfl, by decide⟩
  · refine ⟨(⟨0, 2, 1⟩, .nested [[1], [0], [1]]), by simp, ?_⟩
    simp [pyLen]

/-- Claim C3: a bit position of a register's grid never written by any
raw-map entry stays 0 after reassembly; in particular the width-5 register
with only bits 0 and 2 present yields per-shot string `"00101"`, whose
characters for bits 1, 3 and 4 (string positions 3, 1 and 0) are `'0'`. -/
theorem zero_fill_unwritten_bits :
    (∀ (shots : Nat) (ms : List (MeasurementKey × MeasValue))
      (grids : List GridEntry) (c w : Nat) (g : Grid),
      buildGrids shots ms [] = .ok grids → (c, w, g) ∈ grids →
      ∀ j, j < w → (∀ p ∈ ms, p.1.creg_idx = c → p.1.clbit_idx ≠ j) →
      ∀ row ∈ g, row.getD j 1 = 0)
    ∧ format_iqm_result (some 1) zeroFillExample = .ok ["00101"]
    ∧ "00101".toList.getD 3 'x' = '0'
    ∧ "00101".toList.getD 1 'x' = '0'
    ∧ "00101".toList.getD 0 'x' = '0' := by
  refine ⟨?_, by rfl, by rfl, by rfl, by rfl⟩
  intro shots ms grids c w g hbuild hmem j hj hnone row hrow
  have hz : ColZero c j grids :=
    buildGrids_colZero shots c j ms [] grids hbuild (fun e he => absurd he (by simp)) hnone
  exact hz (c, w, g) hmem rfl hj row hrow

/-- Claim C3 witness: the general part instantiated at the zero-fill example
grid, bit 1 of register 0, on the single stored row. -/
theorem zero_fill_unwritten_bits_witness :
    List.getD [(1 : Int), 0, 1, 0, 0] 1 1 = 0 :=
  zero_fill_unwritten_bits.1 1 zeroFillExample
    [(0, 5, [[(1 : Int), 0, 1, 0, 0]])] 0 5 [[(1 : Int), 0, 1, 0, 0]]
    (by rfl) (by simp) 1 (by omega)
    (by
      intro p hp
      rcases List.mem_cons.mp hp with rfl | hp
      · intro _; decide
      · rcases List.mem_singleton.mp hp with rfl
        intro _; decide)
    [(1 : Int), 0, 1, 0, 0] (by simp)

/-- Claim C6: the expected shot count is the metadata shot count when
present, otherwise the length of the first raw-map column; and a successful
reassembly certifies every column against exactly that count (shape
`(shots, 1)`). -/
theorem shot_count_determination :
    (∀ (n : Nat) (ms : List (MeasurementKey × MeasValue)) (d : Nat),
      defaultShots ms = .ok d → determineShots (some n) ms = .ok n)
    ∧ (∀ (k : MeasurementKey) (v : MeasValue) (rest : List (MeasurementKey × MeasValue))
        (n : Nat), pyLen v = some n → determineShots none ((k, v) :: rest) = .ok n)
    ∧ (∀ (mdShots : Option Nat) (ms : List (MeasurementKey × MeasValue))
        (out : List String) (shots : Nat),
        format_iqm_result mdShots ms = .ok out →
        determineShots mdShots ms = .ok shots →
        ∀ p ∈ ms, npShape p.2 = some [shots, 1]) := by
  refine ⟨?_, ?_, ?_⟩
  · intro n ms d hdef
    simp only [determineShots, hdef, Option.getD]
  · intro k v rest n hl
    simp only [determineShots, defaultShots, hl, Option.getD]
  · intro mdShots ms out shots hok hdet p hp
    obtain ⟨shots2, grids, hdet2, hb, _⟩ := format_ok_elim mdShots ms out hok
    rw [hdet] at hdet2
    cases hdet2
    exact buildGrids_ok_shapes shots ms [] grids hb p hp

/-- Claim C6 witness: metadata count 7 overrides a 3-row first column; with
no metadata the first column's length 3 is used; and a successful run at
shot count 1 certifies both columns' shapes. -/
theorem shot_count_determination_witness :
    determineShots (some 7)
      [((⟨0, 1, 0⟩ : MeasurementKey), MeasValue.nested [[1], [0], [1]])] = .ok 7
    ∧ determineShots none
        [((⟨0, 1, 0⟩ : MeasurementKey), MeasValue.nested [[1], [0], [1]])] = .ok 3
    ∧ npShape (MeasValue.nested [[1]]) = some [1, 1] :=
  ⟨shot_count_determination.1 7 _ 3 (by rfl),
   shot_count_determination.2.1 ⟨0, 1, 0⟩ _ [] 3 (by rfl),
   shot_count_determination.2.2 (some 1) orderingExample ["101 10"] 1 (by rfl) (by rfl)
     (⟨1, 3, 0⟩, .nested [[1]]) (by simp [orderingExample])⟩

/-- Claim C10: a rectangular raw-map entry draws the shape `ValueError` iff
its numpy shape is not exactly `(shots, 1)`; a flat sequence of exactly
`shots` scalars (shape `(shots,)`) is always rejected, and a column of
`shots` one-element rows is accepted (for a consistent key). -/
theorem entry_shape_must_be_shots_by_one :
    (∀ (shots : Nat) (grids : List GridEntry) (k : MeasurementKey) (v : MeasValue)
      (shp : List Nat), npShape v = some shp →
      ((∃ shp0, applyEntry shots grids k v = .error (.valueError k shp0 [shots, 1]))
        ↔ shp ≠ [shots, 1]))
    ∧ (∀ (shots : Nat) (grids : List GridEntry) (k : MeasurementKey) (bs : List Int),
        bs.length = shots →
        applyEntry shots grids k (.flat bs) = .error (.valueError k [shots] [shots, 1]))
    ∧ (∀ (shots : Nat) (k : MeasurementKey) (bs : List Int),
        bs.length = shots → 0 < shots → k.clbit_idx < k.creg_len →
        ∃ grids2, applyEntry shots [] k (.nested (bs.map (fun b => [b]))) = .ok grids2) := by
  refine ⟨?_, ?_, ?_⟩
  · intro shots grids k v shp hs
    constructor
    · rintro ⟨shp0, he⟩ rfl
      have hcond : ([shots, 1] : List Nat) = [shots, 1] := rfl
      simp only [applyEntry, hs, if_pos hcond] at he
      cases hfind : findGrid grids k.creg_idx with
      | some wg =>
        obtain ⟨w, g⟩ := wg
        simp only [hfind] at he
        by_cases hlt : k.clbit_idx < w
        · simp only [if_pos hlt] at he
          cases he
        · simp only [if_neg hlt] at he
          cases he
      | none =>
        simp only [hfind] at he
        by_cases hlt : k.clbit_idx < k.creg_len
        · simp only [if_pos hlt] at he
          cases he
        · simp only [if_neg hlt] at he
          cases he
    · intro hne
      exact ⟨shp, applyEntry_bad shots grids k v shp hs hne⟩
  · intro shots grids k bs hlen
    have hs : npShape (.flat bs) = some [shots] := by
      simp only [npShape, hlen]
    exact applyEntry_bad shots grids k _ [shots] hs (by simp)
  · intro shots k bs hlen hpos hbit
    cases bs with
    | nil => simp at hlen; omega
    | cons b bs2 =>
      have hs : npShape (.nested ((b :: bs2).map (fun x => [x]))) = some [shots, 1] := by
        rw [npShape_column_nonempty]
        simp only [List.length_cons] at hlen
        rw [hlen]
      obtain ⟨grids2, hok, _⟩ :=
        applyEntry_good (fun _ => k.creg_len) shots [] k _
          (fun e he => absurd he (by simp)) rfl hbit hs
      exact ⟨grids2, hok⟩

/-- Claim C10 witness: with one expected shot, a flat `[1]` is rejected with
the shape error while the column `[[1]]` is accepted. -/
theorem entry_shape_must_be_shots_by_one_witness :
    ((∃ shp0, applyEntry 1 [] ⟨0, 2, 0⟩ (.flat [1]) = .error (.valueError ⟨0, 2, 0⟩ shp0 [1, 1]))
      ↔ ([1] : List Nat) ≠ [1, 1])
    ∧ applyEntry 1 [] ⟨0, 2, 0⟩ (.flat [1]) = .error (.valueError ⟨0, 2, 0⟩ [1] [1, 1])
    ∧ ∃ grids2, applyEntry 1 [] (⟨0, 2, 0⟩ : MeasurementKey)
        (.nested ([(1 : Int)].map (fun b => [b]))) = .ok grids2 :=
  ⟨entry_shape_must_be_shots_by_one.1 1 [] ⟨0, 2, 0⟩ (.flat [1]) [1] (by rfl),
   entry_shape_must_be_shots_by_one.2.1 1 [] ⟨0, 2, 0⟩ [1] (by rfl),
   entry_shape_must_be_shots_by_one.2.2 1 ⟨0, 2, 0⟩ [1] (by rfl) (by omega) (by decide)⟩

/-- A job whose client responses carry the ordering example, with no cached
result yet. -/
def exampleJob : IQMJobState :=
  { metadataShots := some 1
    waitResponse := { status := .READY, measurements := orderingExample }
    getRunResponse := { status := .READY, measurements := orderingExample }
    resultCache := none }

/-- Claim C4: starting from an uncached job, a successful `result()` call
fetches (calls `wait_for_results`), and the second call returns the identical
structured result and state without fetching again. -/
theorem result_caching_idempotent (jobId : String) (j j2 : IQMJobState)
    (r : QiskitResult) (b : Bool)
    (hcache : j.resultCache = none)
    (hcall : IQMJob.result jobId j = .ok (r, j2, b)) :
    b = true ∧ IQMJob.result jobId j2 = .ok (r, j2, false) := by
  unfold IQMJob.result at hcall
  split at hcall
  · rename_i ht
    rw [hcache] at ht
    simp [pyTruthy] at ht
  · split at hcall
    · rename_i mem hf
      simp only [Except.ok.injEq, Prod.mk.injEq] at hcall
      obtain ⟨rfl, rfl, rfl⟩ := hcall
      refine ⟨rfl, ?_⟩
      have hne := format_ok_ne_nil _ _ _ hf
      have ht2 : pyTruthy (some mem) = true := by
        cases mem with
        | nil => exact absurd rfl hne
        | cons x xs => rfl
      unfold IQMJob.result
      simp only [ht2, if_true]
      rfl
    · cases hcall

/-- Claim C4 witness: the example job, run twice. -/
theorem result_caching_idempotent_witness :
    true = true ∧
    IQMJob.result "job" { exampleJob with resultCache := some ["101 10"] } =
      .ok (mkQiskitResult "job" ["101 10"],
        { exampleJob with resultCache := some ["101 10"] }, false) :=
  result_caching_idempotent "job" exampleJob
    { exampleJob with resultCache := some ["101 10"] }
    (mkQiskitResult "job" ["101 10"]) true rfl (by rfl)

/-- Claim C5: once `status()` has returned `DONE`, every later `status()`
call returns `DONE` on the resulting state without calling `get_run`. -/
theorem status_done_terminal (j j2 : IQMJobState) (b : Bool)
    (h : IQMJob.status j = .ok (.DONE, j2, b)) :
    IQMJob.status j2 = .ok (.DONE, j2, false) := by
  unfold IQMJob.status at h
  split at h
  · rename_i ht
    simp only [Except.ok.injEq, Prod.mk.injEq] at h
    obtain ⟨_, rfl, _⟩ := h
    unfold IQMJob.status
    rw [if_pos ht]
  · rename_i ht
    split at h
    · rename_i hr
      split at h
      · rename_i mem hf
        simp only [Except.ok.injEq, Prod.mk.injEq] at h
        obtain ⟨_, rfl, _⟩ := h
        have hne := format_ok_ne_nil _ _ _ hf
        have ht2 : pyTruthy (some mem) = true := by
          cases mem with
          | nil => exact absurd rfl hne
          | cons x xs => rfl
        unfold IQMJob.status
        simp only [ht2, if_true]
      · cases h
    · simp only [Except.ok.injEq, Prod.mk.injEq] at h
      obtain ⟨h1, _, _⟩ := h
      cases h1

/-- Claim C5 witness: the example job polled twice. -/
theorem status_done_terminal_witness :
    IQMJob.status { exampleJob with resultCache := some ["101 10"] } =
      .ok (.DONE, { exampleJob with resultCache := some ["101 10"] }, false) :=
  status_done_terminal exampleJob { exampleJob with resultCache := some ["101 10"] }
    true (by rfl)

/-- Claim C7: the result's single entry reports the memory length as the
shot count, and its counts list maps each distinct bitstring to its number
of occurrences (and nothing else); in particular `["00","00","01"]` gives
counts `{"00": 2, "01": 1}` and 3 shots. -/
theorem histogram_correctness :
    (∀ (jobId : String) (mem : List String),
      (mkQiskitResult jobId mem).results = [⟨mem.length, true, mem, counter mem⟩])
    ∧ (∀ (mem : List String) (s : String), s ∈ mem →
        List.lookup s (counter mem) = some (mem.count s))
    ∧ (∀ (mem : List String) (s : String), s ∉ mem →
        List.lookup s (counter mem) = none)
    ∧ (mkQiskitResult "job" ["00", "00", "01"]).results =
        [{ shots := 3, success := true, memory := ["00", "00", "01"],
           counts := [("00", 2), ("01", 1)] }] := by
  refine ⟨fun jobId mem => rfl, ?_, ?_, rfl⟩
  · intro mem s hs
    rw [lookup_counter, if_pos hs]
  · intro mem s hs
    rw [lookup_counter, if_neg hs]

/-- Claim C7 witness: membership lookups instantiated at `["00","00","01"]`. -/
theorem histogram_correctness_witness :
    List.lookup "00" (counter ["00", "00", "01"]) =
      some ((["00", "00", "01"] : List String).count "00")
    ∧ List.lookup "10" (counter ["00", "00", "01"]) = none :=
  ⟨histogram_correctness.2.1 ["00", "00", "01"] "00" (by simp),
   histogram_correctness.2.2.1 ["00", "00", "01"] "10" (by simp)⟩

/-- Claim C8: `submit()` and `cancel()` raise `NotImplementedError` for every
job state, unconditionally. -/
theorem submit_cancel_always_fail :
    ∀ j : IQMJobState,
      IQMJob.submit j =
        .error (.notImplementedError "Instead, use IQMBackend.run to submit jobs.") ∧
      IQMJob.cancel j =
        .error (.notImplementedError "Canceling jobs is currently not supported.") :=
  fun _ => ⟨rfl, rfl⟩

/-- Claim C9: the cache guard is Python truthiness of `self._result`, so a
job whose stored result is the empty list is treated as uncached: every
successful `result()` call invokes `wait_for_results` and every successful
`status()` call invokes `get_run`. -/
theorem empty_result_cache_ineffective (jobId : String) (j : IQMJobState)
    (hc : j.resultCache = some []) :
    (∀ r j2 b, IQMJob.result jobId j = .ok (r, j2, b) → b = true) ∧
    (∀ st j2 b, IQMJob.status j = .ok (st, j2, b) → b = true) := by
  have ht : pyTruthy j.resultCache = false := by rw [hc]; rfl
  constructor
  · intro r j2 b h
    unfold IQMJob.result at h
    rw [ht] at h
    simp only [Bool.false_eq_true, if_false] at h
    split at h
    · simp only [Except.ok.injEq, Prod.mk.injEq] at h
      exact h.2.2.symm
    · cases h
  · intro st j2 b h
    unfold IQMJob.status at h
    rw [ht] at h
    simp only [Bool.false_eq_true, if_false] at h
    split at h
    · split at h
      · simp only [Except.ok.injEq, Prod.mk.injEq] at h
        exact h.2.2.symm
      · cases h
    · simp only [Except.ok.injEq, Prod.mk.injEq] at h
      exact h.2.2.symm

/-- Claim C9 witness: the example job with a cached empty list does call the
client again; both the `result()` and `status()` call flags are forced to
`true` by the claim theorem at the concrete evaluation. -/
theorem empty_result_cache_ineffective_witness : true = true ∧ true = true :=
  ⟨(empty_result_cache_ineffective "job"
      { exampleJob with resultCache := some [] } rfl).1
      (mkQiskitResult "job" ["101 10"])
      { exampleJob with resultCache := some ["101 10"] } true (by rfl),
   (empty_result_cache_ineffective "job"
      { exampleJob with resultCache := some [] } rfl).2
      .DONE { exampleJob with resultCache := some ["101 10"] } true (by rfl)⟩
